import Mathlib

/-!
# Verification of the smart-gmail-notifier core pipeline

Shallow embedding of the repository's extraction / sanitization /
classification pipeline:

* `gmail.js` — `GmailAPI.extractEmailBody`, `decodeBase64`, `stripHtml`;
* `ai.js` — `AIProcessor.cleanEmail`, `callAI`, `processEmail`,
  `addContextHint`, `basicFallback`, `validateTag`;
* the background service worker (`GmailNotifier`) — the processed-message
  dedup set (`markAsProcessed`, `loadStoredData`, the `clearProcessed`
  message handler).

Strings are modelled as `List Char` internally (the repository only ever
sanitizes ASCII text, so JS UTF-16 `.length` / `.slice` coincide with
character counts); JS regular expressions are translated operation by
operation into explicit scans, with a comment at each definition recording
the regex it embeds.
-/

set_option maxRecDepth 16384
set_option maxHeartbeats 2000000

namespace SGN

/-! ## Character-level utilities -/

/-- The JS `\s` class restricted to the code points that occur in the
repository's inputs: space, tab, line feed, carriage return, form feed,
vertical tab. -/
def isWs (c : Char) : Bool :=
  c == ' ' || c == '\t' || c == '\n' || c == '\r' ||
  c == Char.ofNat 12 || c == Char.ofNat 11

/-- ASCII lower-casing of one character (JS `toLowerCase` on the ASCII
inputs the pipeline sees). -/
def lcChar (c : Char) : Char :=
  if 65 ≤ c.toNat ∧ c.toNat ≤ 90 then Char.ofNat (c.toNat + 32) else c

/-- ASCII lower-casing of a character list. -/
def lowerL (l : List Char) : List Char := l.map lcChar

/-- `isPref p l`: `p` is a prefix of `l`. -/
def isPref : List Char → List Char → Bool
  | [], _ => true
  | _ :: _, [] => false
  | p :: ps, c :: cs => p == c && isPref ps cs

/-- `containsSub t pat`: `pat` occurs as a contiguous substring of `t`. -/
def containsSub : List Char → List Char → Bool
  | [], pat => isPref pat []
  | l@(_ :: rest), pat => isPref pat l || containsSub rest pat

/-- Substring test against a string literal pattern. -/
def containsStr (t : List Char) (pat : String) : Bool := containsSub t pat.data

/-- `pats.some (p => text.includes(p))` — used to translate an alternation
regex `/a|b|c/` tested with `.test(text)` on already-lower-cased text. -/
def containsAnyS (t : List Char) (pats : List String) : Bool :=
  pats.any (fun p => containsStr t p)

/-- Tail-recursive scan for the first `'\n'`, reporting its absolute index. -/
def idxOfNlAux : Nat → List Char → Option Nat
  | _, [] => none
  | i, c :: rest => if c == '\n' then some i else idxOfNlAux (i + 1) rest

/-- Index of the first `'\n'`. -/
def idxOfNl (l : List Char) : Option Nat := idxOfNlAux 0 l

/-- Tail-recursive substring scan, reporting the absolute start index. -/
def subIdxAux (pat : List Char) : Nat → List Char → Option Nat
  | i, [] => if isPref pat [] then some i else none
  | i, l@(_ :: rest) => if isPref pat l then some i else subIdxAux pat (i + 1) rest

/-- Index of the first occurrence of `pat` as a substring. -/
def subIdx (pat : List Char) (l : List Char) : Option Nat := subIdxAux pat 0 l

/-! ## `AIProcessor.cleanEmail` (src/ai.js lines 66-76)

The sanitizer is a chain of six `.replace` calls followed by `.trim()` and
`.slice(0, 900)`; each stage is embedded as one definition below, with the
regex it translates recorded in the doc comment. -/

/-- `.replace(/^(hi|hello|dear).*?\n/gi, '')`: without the `m` flag the `^`
anchor matches only at position 0 and `.` cannot cross a newline, so the
regex removes the first line (through its `'\n'`) exactly when the text
starts, case-insensitively, with one of the three greeting words and a
newline exists. -/
def removeGreetingL (l : List Char) : List Char :=
  let low := lowerL l
  if isPref "hi".data low || isPref "hello".data low || isPref "dear".data low then
    match idxOfNl l with
    | some i => l.drop (i + 1)
    | none => l
  else l

/-- Scan for `" wrote:"` at successive positions, stopping at a `'\n'`
(the `.*` between `"on "` and `" wrote:"` cannot cross a newline). -/
def hasWroteHere : List Char → Bool
  | [] => false
  | l@(c :: rest) =>
    if c == '\n' then false
    else isPref " wrote:".data l || hasWroteHere rest

/-- Tail-recursive scan for the leftmost match of `on .* wrote:`. -/
def onWroteIdxAux : Nat → List Char → Option Nat
  | _, [] => none
  | i, l@(_ :: rest) =>
    if isPref "on ".data l && hasWroteHere (l.drop 3) then some i
    else onWroteIdxAux (i + 1) rest

/-- Start index of the leftmost match of `on .* wrote:` (on lower-cased
text): a position carrying `"on "` with `" wrote:"` later on the same line. -/
def onWroteIdx (l : List Char) : Option Nat := onWroteIdxAux 0 l

/-- `.replace(/on .* wrote:[\s\S]*/gi, '')`: the `[\s\S]*` tail makes any
match extend to the end of the string, so the whole replacement truncates
at the leftmost match. -/
def removeOnWroteL (l : List Char) : List Char :=
  match onWroteIdx (lowerL l) with
  | some i => l.take i
  | none => l

/-- The third `.replace` (global, case-insensitive): truncate at the
leftmost occurrence of the `"-----original message-----"` marker, whose
trailing `[\s\S]*` extends every match to the end of the string. -/
def removeOrigMsgL (l : List Char) : List Char :=
  match subIdx "-----original message-----".data (lowerL l) with
  | some i => l.take i
  | none => l

/-- Start index of the leftmost match of `sent from my.*$`: without the `m`
flag `$` matches only at end of input, and `.` cannot cross a newline, so a
position matches exactly when it carries `"sent from my"` and no newline
follows the marker. -/
def sfmIdxAux : Nat → List Char → Option Nat
  | _, [] => none
  | i, l@(_ :: rest) =>
    if isPref "sent from my".data l && !(l.drop 12).contains '\n' then some i
    else sfmIdxAux (i + 1) rest

/-- Start index of the leftmost `sent from my.*$` match. -/
def sfmIdx (l : List Char) : Option Nat := sfmIdxAux 0 l

/-- `.replace(/sent from my.*$/gi, '')`. -/
def removeSfmL (l : List Char) : List Char :=
  match sfmIdx (lowerL l) with
  | some i => l.take i
  | none => l

/-- Length of the match of `https?:\/\/\S+` anchored at the head of `l`
(case-sensitive: the URL replacement has no `i` flag), `none` if there is
no match here: the scheme must be followed by at least one non-whitespace
character, which `\S+` then consumes greedily. -/
def urlMatchLen (l : List Char) : Option Nat :=
  if isPref "https://".data l then
    if ((l.drop 8).takeWhile (fun c => !isWs c)).length == 0 then none
    else some (8 + ((l.drop 8).takeWhile (fun c => !isWs c)).length)
  else if isPref "http://".data l then
    if ((l.drop 7).takeWhile (fun c => !isWs c)).length == 0 then none
    else some (7 + ((l.drop 7).takeWhile (fun c => !isWs c)).length)
  else none

/-- Fuel-indexed URL-removal scan; every step consumes at least one
character, so `fuel = l.length` makes the fuel bound unreachable and the
function agrees with the unbounded scan. Structural recursion on the fuel
keeps the definition kernel-reducible. -/
def removeUrlsAux : Nat → List Char → List Char
  | _, [] => []
  | 0, l => l
  | fuel + 1, c :: rest =>
    match urlMatchLen (c :: rest) with
    | some k => removeUrlsAux fuel ((c :: rest).drop k)
    | none => c :: removeUrlsAux fuel rest

/-- `.replace(/https?:\/\/\S+/g, '')`: delete every (leftmost,
non-overlapping) URL match and keep scanning after it. -/
def removeUrlsL (l : List Char) : List Char := removeUrlsAux l.length l

/-- `.replace(/\s+/g, ' ')`: every maximal whitespace run becomes a single
space. -/
def collapseWs : List Char → List Char
  | [] => []
  | c :: rest =>
    if isWs c then
      match rest with
      | [] => [' ']
      | d :: _ => if isWs d then collapseWs rest else ' ' :: collapseWs rest
    else c :: collapseWs rest

/-- Drop trailing whitespace (the right half of JS `trim`). -/
def trimRL (l : List Char) : List Char := (l.reverse.dropWhile isWs).reverse

/-- JS `String.prototype.trim`. -/
def trimWsL (l : List Char) : List Char := trimRL (l.dropWhile isWs)

/-- Normal-form predicate for collapsed text: every whitespace character
is exactly `' '`. -/
def allWsSpace (l : List Char) : Bool := l.all (fun c => !isWs c || c == ' ')

/-- Normal-form predicate for collapsed text: no two adjacent whitespace
characters. -/
def noAdjWs : List Char → Bool
  | [] => true
  | [_] => true
  | c :: d :: rest => !(isWs c && isWs d) && noAdjWs (d :: rest)

/-- The full sanitizer body of `AIProcessor.cleanEmail`, stage by stage;
`.slice(0, 900)` keeps the first 900 UTF-16 units, i.e. the first 900
characters on the ASCII inputs modelled here. -/
def cleanEmailL (l : List Char) : List Char :=
  (trimWsL (collapseWs (removeUrlsL (removeSfmL
    (removeOrigMsgL (removeOnWroteL (removeGreetingL l))))))).take 900

/-- `AIProcessor.cleanEmail`. -/
def cleanEmail (s : String) : String := String.mk (cleanEmailL s.data)

/-- JS `String.prototype.trim` on strings. -/
def trimJS (s : String) : String := String.mk (trimWsL s.data)

/-- Fuel-indexed token counter; each step consumes at least one character,
so `fuel = l.length` is exact. -/
def tokenCountAux : Nat → List Char → Nat
  | _, [] => 0
  | 0, _ => 0
  | fuel + 1, c :: rest =>
    if isWs c then tokenCountAux fuel rest
    else 1 + tokenCountAux fuel (rest.dropWhile (fun d => !isWs d))

/-- Number of whitespace-delimited tokens:
`s.split(/\s+/).filter(w => w.length > 0).length`. -/
def tokenCountL (l : List Char) : Nat := tokenCountAux l.length l

/-- Token count of a string. -/
def tokenCount (s : String) : Nat := tokenCountAux s.data.length s.data

/-! ## `GmailAPI.decodeBase64` (src/gmail.js lines 142-153)

The JS code normalizes the URL-safe alphabet, calls `atob`, percent-encodes
every byte of the result and feeds it to `decodeURIComponent`; the net
effect of the last two steps is a strict UTF-8 interpretation of the
decoded bytes. Any failure (`atob` on malformed base64, `decodeURIComponent`
on malformed UTF-8) is caught and produces `''`. -/

/-- ASCII whitespace stripped by WHATWG forgiving-base64 (the `atob` spec). -/
def isB64Ws (c : Char) : Bool :=
  c == ' ' || c == '\t' || c == '\n' || c == '\r' || c == Char.ofNat 12

/-- Value of one base64 alphabet character. -/
def b64Val (c : Char) : Option Nat :=
  if 'A' ≤ c ∧ c ≤ 'Z' then some (c.toNat - 65)
  else if 'a' ≤ c ∧ c ≤ 'z' then some (c.toNat - 97 + 26)
  else if '0' ≤ c ∧ c ≤ '9' then some (c.toNat - 48 + 52)
  else if c == '+' then some 62
  else if c == '/' then some 63
  else none

/-- Strip up to two trailing `'='` padding characters. -/
def stripPad (l : List Char) : List Char :=
  match l.getLast? with
  | some '=' =>
    match l.dropLast.getLast? with
    | some '=' => l.dropLast.dropLast
    | _ => l.dropLast
  | _ => l

/-- Six-bit groups to bytes: every 4 values give 3 bytes, a tail of 3 gives
2 bytes, a tail of 2 gives 1 byte (leftover bits are discarded, as in
forgiving-base64). -/
def b64Groups : List Nat → List Nat
  | a :: b :: c :: d :: rest =>
    (a * 4 + b / 16) :: ((b % 16) * 16 + c / 4) :: ((c % 4) * 64 + d) :: b64Groups rest
  | [a, b] => [a * 4 + b / 16]
  | [a, b, c] => [a * 4 + b / 16, (b % 16) * 16 + c / 4]
  | _ => []

/-- JS `atob` (WHATWG forgiving-base64 decode): strip ASCII whitespace,
strip padding when the length is a multiple of 4, fail on a remainder of 1
or on any character outside the alphabet. -/
def atobBytes (l : List Char) : Option (List Nat) :=
  let t := l.filter (fun c => !isB64Ws c)
  let t2 := if t.length % 4 == 0 then stripPad t else t
  if t2.length % 4 == 1 then none
  else (t2.mapM b64Val).map b64Groups

/-- UTF-8 continuation byte. -/
def isCont (b : Nat) : Bool := 128 ≤ b && b ≤ 191

/-- Strict UTF-8 decoding of a byte list (the semantics
`decodeURIComponent` applies to percent-encoded bytes): rejects truncated
sequences, bad continuation bytes, overlong encodings, surrogates and
code points above `0x10FFFF`. -/
def utf8Decode : List Nat → Option (List Char)
  | [] => some []
  | b :: rest =>
    if b ≤ 127 then
      (utf8Decode rest).map (fun cs => Char.ofNat b :: cs)
    else if 194 ≤ b && b ≤ 223 then
      match rest with
      | b2 :: rest2 =>
        if isCont b2 then
          (utf8Decode rest2).map (fun cs =>
            Char.ofNat ((b - 192) * 64 + (b2 - 128)) :: cs)
        else none
      | [] => none
    else if b == 224 then
      match rest with
      | b2 :: b3 :: rest3 =>
        if (160 ≤ b2 && b2 ≤ 191) && isCont b3 then
          (utf8Decode rest3).map (fun cs =>
            Char.ofNat ((b - 224) * 4096 + (b2 - 128) * 64 + (b3 - 128)) :: cs)
        else none
      | _ => none
    else if (225 ≤ b && b ≤ 236) || b == 238 || b == 239 then
      match rest with
      | b2 :: b3 :: rest3 =>
        if isCont b2 && isCont b3 then
          (utf8Decode rest3).map (fun cs =>
            Char.ofNat ((b - 224) * 4096 + (b2 - 128) * 64 + (b3 - 128)) :: cs)
        else none
      | _ => none
    else if b == 237 then
      match rest with
      | b2 :: b3 :: rest3 =>
        if (128 ≤ b2 && b2 ≤ 159) && isCont b3 then
          (utf8Decode rest3).map (fun cs =>
            Char.ofNat ((b - 224) * 4096 + (b2 - 128) * 64 + (b3 - 128)) :: cs)
        else none
      | _ => none
    else if b == 240 then
      match rest with
      | b2 :: b3 :: b4 :: rest4 =>
        if ((144 ≤ b2 && b2 ≤ 191) && isCont b3) && isCont b4 then
          (utf8Decode rest4).map (fun cs =>
            Char.ofNat ((b - 240) * 262144 + (b2 - 128) * 4096 +
              (b3 - 128) * 64 + (b4 - 128)) :: cs)
        else none
      | _ => none
    else if 241 ≤ b && b ≤ 243 then
      match rest with
      | b2 :: b3 :: b4 :: rest4 =>
        if (isCont b2 && isCont b3) && isCont b4 then
          (utf8Decode rest4).map (fun cs =>
            Char.ofNat ((b - 240) * 262144 + (b2 - 128) * 4096 +
              (b3 - 128) * 64 + (b4 - 128)) :: cs)
        else none
      | _ => none
    else if b == 244 then
      match rest with
      | b2 :: b3 :: b4 :: rest4 =>
        if ((128 ≤ b2 && b2 ≤ 143) && isCont b3) && isCont b4 then
          (utf8Decode rest4).map (fun cs =>
            Char.ofNat ((b - 240) * 262144 + (b2 - 128) * 4096 +
              (b3 - 128) * 64 + (b4 - 128)) :: cs)
        else none
      | _ => none
    else none

/-- The fallible core of `decodeBase64`: URL-safe normalization
(`- → +`, `_ → /`), then `atob`, then UTF-8 interpretation. -/
def decodeBase64Opt (s : String) : Option String :=
  match atobBytes (s.data.map
      (fun c => if c == '-' then '+' else if c == '_' then '/' else c)) with
  | none => none
  | some bytes => (utf8Decode bytes).map String.mk

/-- `GmailAPI.decodeBase64`: any throw inside the try block is caught and
yields `''`. -/
def decodeBase64 (s : String) : String := (decodeBase64Opt s).getD ""

/-! ## `GmailAPI.stripHtml` (src/gmail.js lines 155-171)

The try branch builds a DOM element; in the MV3 service worker that hosts
this code `document` is undefined, so the catch branch runs:
`html.replace(/<[^>]*>/g, '').replace(/\s+/g, ' ').trim()`. That branch is
the one embedded here. -/

/-- Fuel-indexed tag stripper for `/<[^>]*>/g`: a `'<'` with a later `'>'`
is removed together with everything between them; a `'<'` with no closing
`'>'` does not match and is kept. Each step consumes at least one
character, so `fuel = l.length` is exact. -/
def stripTagsAux : Nat → List Char → List Char
  | _, [] => []
  | 0, l => l
  | fuel + 1, c :: rest =>
    if c == '<' then
      match subIdx ">".data rest with
      | some i => stripTagsAux fuel (rest.drop (i + 1))
      | none => c :: stripTagsAux fuel rest
    else c :: stripTagsAux fuel rest

/-- `GmailAPI.stripHtml` (catch branch). -/
def stripHtml (s : String) : String :=
  String.mk (trimWsL (collapseWs (stripTagsAux s.data.length s.data)))

/-! ## `GmailAPI.extractEmailBody` (src/gmail.js lines 101-140) -/

/-- JS truthiness of an optional string field: `undefined`, `null` and
`''` are falsy. -/
def optTruthy : Option String → Bool
  | none => false
  | some s => !(s == "")

/-- A Gmail message payload node: `mimeType`, optional inline `body.data`,
and the ordered `parts` array. An absent `parts` field is modelled as `[]`:
the code only iterates over it, and iterating an empty array is
indistinguishable from skipping the `if (payload.parts)` block. -/
inductive RawMessage where
  | node (mimeType : Option String) (bodyData : Option String)
      (parts : List RawMessage)

/-- Field accessor. -/
def RawMessage.mimeTypeOf : RawMessage → Option String
  | .node mt _ _ => mt

/-- Field accessor. -/
def RawMessage.bodyDataOf : RawMessage → Option String
  | .node _ bd _ => bd

/-- Field accessor. -/
def RawMessage.partsOf : RawMessage → List RawMessage
  | .node _ _ ps => ps

/-- Condition of the first scan loop:
`part.mimeType === 'text/plain' && part.body?.data`. -/
def isPlainLeafB (p : RawMessage) : Bool :=
  p.mimeTypeOf == some "text/plain" && optTruthy p.bodyDataOf

/-- Condition of the second scan loop:
`part.mimeType === 'text/html' && part.body?.data`. -/
def isHtmlLeafB (p : RawMessage) : Bool :=
  p.mimeTypeOf == some "text/html" && optTruthy p.bodyDataOf

/-- `part.body.data`, defaulting as the loops only read it when truthy. -/
def leafData (p : RawMessage) : String := p.bodyDataOf.getD ""

mutual

/-- `GmailAPI.extractEmailBody`: single-part branch (only the two textual
mime types return there), then the `text/plain` scan over the children,
then the `text/html` scan, then recursion into each child in order, and
`''` when everything falls through. -/
def extractEmailBody : RawMessage → String
  | .node mt bd parts =>
    if optTruthy mt && optTruthy bd && mt == some "text/plain" then
      decodeBase64 (bd.getD "")
    else if optTruthy mt && optTruthy bd && mt == some "text/html" then
      stripHtml (decodeBase64 (bd.getD ""))
    else
      match parts.find? isPlainLeafB with
      | some p => decodeBase64 (leafData p)
      | none =>
        match parts.find? isHtmlLeafB with
        | some p => stripHtml (decodeBase64 (leafData p))
        | none => extractList parts

/-- The recursive third loop: `if (nestedBody) return nestedBody;`. -/
def extractList : List RawMessage → String
  | [] => ""
  | p :: rest =>
    if extractEmailBody p == "" then extractList rest else extractEmailBody p

end

mutual

/-- No node of the tree is a textual leaf: nowhere do a truthy `body.data`
and a `text/plain` or `text/html` mime type coincide. -/
def noTextual : RawMessage → Bool
  | .node mt bd parts =>
    !(optTruthy bd && (mt == some "text/plain" || mt == some "text/html")) &&
      noTextualList parts

/-- `noTextual` on every element. -/
def noTextualList : List RawMessage → Bool
  | [] => true
  | p :: rest => noTextual p && noTextualList rest

end

/-! ## Classification results and `AIProcessor.basicFallback`
(src/ai.js lines 354-389) -/

/-- The `{ summary, tag }` object returned by the classifier. -/
structure ClassificationResult where
  summary : String
  tag : String
deriving DecidableEq, Repr

/-- First cascade condition: `/interview|hr|recruiter|hiring/i.test(text)`,
as substring tests on the lower-cased text. -/
def fbCond1 (low : List Char) : Bool :=
  containsAnyS low ["interview", "hr", "recruiter", "hiring"]

/-- Second cascade condition: `/invite|event|meetup|session/i`. -/
def fbCond2 (low : List Char) : Bool :=
  containsAnyS low ["invite", "event", "meetup", "session"]

/-- Third cascade condition: `/let us know|would you|please reply|respond/i`. -/
def fbCond3 (low : List Char) : Bool :=
  containsAnyS low ["let us know", "would you", "please reply", "respond"]

/-- Fourth cascade condition: `/update|announcement|newsletter|inform/i`. -/
def fbCond4 (low : List Char) : Bool :=
  containsAnyS low ["update", "announcement", "newsletter", "inform"]

/-- `AIProcessor.basicFallback`: a four-rule top-down cascade, then the
default branch whose summary depends on the truthiness of `subject`. -/
def basicFallback (subject text : String) : ClassificationResult :=
  if fbCond1 (lowerL text.data) then
    ⟨"Interview-related email; reply to confirm next steps.", "Reply Required"⟩
  else if fbCond2 (lowerL text.data) then
    ⟨"Event invitation; reply if you want to attend.", "Reply Required"⟩
  else if fbCond3 (lowerL text.data) then
    ⟨"This email asks for your response or confirmation.", "Reply Required"⟩
  else if fbCond4 (lowerL text.data) then
    ⟨"This email shares an update or announcement.", "FYI"⟩
  else if subject == "" then
    ⟨"This email contains general information.", "No Reply Needed"⟩
  else
    ⟨"This email is about " ++ String.mk (lowerL subject.data) ++ ".",
      "No Reply Needed"⟩

/-- `AIProcessor.validateTag`: keep a tag from the four-value allow list,
anything else (including a missing field) becomes `"FYI"`. -/
def validateTag : Option String → String
  | some t =>
    if t == "Urgent" || t == "Reply Required" || t == "FYI" ||
        t == "No Reply Needed" then t
    else "FYI"
  | none => "FYI"

/-! ## `AIProcessor.addContextHint` (src/ai.js lines 115-349)

The method lower-cases `subject + ' ' + body` and walks a cascade of
`if (regex.test(text)) return '...';` statements, returning the AI summary
only when nothing matched. The cascade is encoded below as an ordered
first-match table with one entry per `if`, in source order, including the
duplicated second block (source lines 252-345) whose alternations differ
slightly from the first block (`overdue`, `transaction successful`,
`refund initiated`, `suspicious activity` appear only in the first;
`login attempt` only in the second). Every pattern is an alternation of
literals except `sign[- ]?in`, expanded into its three variants; since the
text is already lower-cased, the `i` flag of the first block and the
missing flag of the second block coincide. -/
def hintRules : List (List String × String) := [
  (["one time password", "otp", "verification code", "use this code"],
    "One-time password received for account verification."),
  (["new sign-in", "new sign in", "new signin", "signed in", "login detected",
      "new device"],
    "New sign-in detected on your account; review if this was you."),
  (["google sign-in", "google sign in", "google signin",
      "sign-in to google account", "sign in to google account",
      "signin to google account"],
    "Google account sign-in detected; review activity if unexpected."),
  (["security alert", "unusual activity", "suspicious activity"],
    "Security alert on your account; review immediately."),
  (["password reset", "reset your password", "change your password"],
    "Password reset requested; take action if this was you."),
  (["verify your email", "email verification", "confirm your email"],
    "Email verification required to complete account setup."),
  (["access request", "permission request", "requested access",
      "shared with you"],
    "Access request received; review and approve if appropriate."),
  (["new device", "new browser", "new location"],
    "New device or location used to access your account."),
  (["interview", "hr", "recruiter", "hiring", "selection", "availability",
      "next round"],
    "Interview-related email; reply to confirm availability."),
  (["offer letter", "job offer", "we are pleased to offer"],
    "Job offer received; review details and respond."),
  (["regret to inform", "not selected", "application rejected"],
    "Application update received; no response required."),
  (["application status", "application update", "under review"],
    "Update on your job application status."),
  (["meeting request", "schedule a call", "calendar invite"],
    "Meeting request received; reply to schedule or confirm."),
  (["event", "meetup", "webinar", "conference", "session", "join us"],
    "Event invitation received; reply if you want to attend."),
  (["rescheduled", "new time", "updated schedule"],
    "Meeting or event has been rescheduled; review updated details."),
  (["cancelled", "canceled"],
    "Meeting or event has been cancelled."),
  (["payment due", "outstanding amount", "due by", "overdue"],
    "Payment due; review and complete before the deadline."),
  (["invoice", "receipt", "payment confirmation", "transaction successful"],
    "Payment or invoice details received."),
  (["refund", "credited back", "refund initiated"],
    "Refund update received; check transaction details."),
  (["subscription renewal", "renewal notice", "renews on"],
    "Subscription renewal notice received."),
  (["subscription cancelled", "cancellation confirmed"],
    "Subscription cancellation confirmed."),
  (["plan upgraded", "plan changed", "billing plan"],
    "Your service plan has been updated."),
  (["special offer", "limited time offer", "discount", "sale", "deal"],
    "Promotional offer received; check details if interested."),
  (["introducing", "new launch", "we are excited to announce"],
    "Promotional announcement about a new product or feature."),
  (["newsletter", "weekly digest", "monthly update"],
    "Newsletter received; informational update."),
  (["policy update", "terms updated", "privacy policy"],
    "Policy update announced; review changes."),
  (["product update", "new feature", "feature release"],
    "Product update announced with new changes."),
  (["thank you", "thanks for", "appreciate"],
    "Thank-you or appreciation message received."),
  (["congratulations", "congrats"],
    "Congratulations message received."),
  (["interview", "hr", "recruiter", "hiring", "selection", "availability",
      "next round"],
    "Interview-related email; reply to confirm availability."),
  (["offer letter", "job offer", "we are pleased to offer"],
    "Job offer received; review details and respond."),
  (["regret to inform", "not selected", "application rejected"],
    "Application update received; no response required."),
  (["application status", "application update", "under review"],
    "Update on your job application status."),
  (["meeting request", "schedule a call", "calendar invite"],
    "Meeting request received; reply to schedule or confirm."),
  (["event", "meetup", "webinar", "conference", "session", "join us"],
    "Event invitation received; reply if you want to attend."),
  (["rescheduled", "new time", "updated schedule"],
    "Meeting or event has been rescheduled; review updated details."),
  (["cancelled", "canceled"],
    "Meeting or event has been cancelled."),
  (["payment due", "outstanding amount", "due by"],
    "Payment due; review and complete before the deadline."),
  (["invoice", "receipt", "payment confirmation"],
    "Payment or invoice details received."),
  (["refund", "credited back"],
    "Refund update received; check transaction details."),
  (["security alert", "unusual activity", "login attempt"],
    "Security alert detected; review immediately."),
  (["verify your email", "email verification", "confirm your email"],
    "Email verification required; confirm to continue."),
  (["password reset", "reset your password"],
    "Password reset requested; take action if this was you."),
  (["subscription renewal", "renewal notice"],
    "Subscription renewal notice received."),
  (["subscription cancelled", "cancellation confirmed"],
    "Subscription cancellation confirmed."),
  (["plan upgraded", "plan changed"],
    "Your service plan has been updated."),
  (["newsletter", "monthly update", "weekly digest"],
    "Newsletter received; informational update."),
  (["policy update", "terms updated", "privacy policy"],
    "Policy update announced; review changes."),
  (["product update", "new feature", "feature release"],
    "Product update announced with new changes."),
  (["thank you", "thanks for", "appreciate"],
    "Thank-you or appreciation message received."),
  (["congratulations", "congrats"],
    "Congratulations message received.")]

/-- The lower-cased `` `${subject} ${body}` `` the cascade is tested
against. -/
def hintText (subject body : String) : List Char :=
  lowerL (subject ++ " " ++ body).data

/-- First cascade entry matching the text, if any. -/
def hintResult (t : List Char) : Option String :=
  (hintRules.find? (fun r => containsAnyS t r.1)).map (fun r => r.2)

/-- `AIProcessor.addContextHint`: the first matching cascade entry returns
its canned sentence; otherwise the AI summary is kept. The `tag` parameter
is accepted and ignored, as in the source. -/
def addContextHint (summary subject body : String) (_tag : String) : String :=
  match hintResult (hintText subject body) with
  | some c => c
  | none => summary

/-! ## `AIProcessor.callAI` / `AIProcessor.processEmail`
(src/ai.js lines 36-62 and 80-111)

The network call and response decoding inside `callAI`'s try block can stop
at five distinct points, each of which throws and lands in the catch
handler: the `fetch` itself rejects (transport failure or timeout);
`res.json()` rejects (non-JSON body); `data.choices[0].message.content` is
absent (in particular every non-success HTTP status: the code never checks
`res.ok`, but OpenAI error bodies carry no `choices`); `JSON.parse` throws
on non-JSON content; or `parsed.summary` is absent so `.trim()` throws.
Only a response that survives all five steps produces a result from the
model. -/

/-- Outcome of the `callAI` try block, one constructor per exit point. -/
inductive AICallOutcome where
  | transportFail
  | badJson
  | noContent
  | contentNotJson
  | parsedNoSummary (tag : Option String)
  | parsed (summary : String) (tag : Option String)
deriving DecidableEq, Repr

/-- Every outcome other than a fully parsed response throws. -/
def isFailedCall : AICallOutcome → Bool
  | .parsed _ _ => false
  | _ => true

/-- `AIProcessor.callAI`: a parsed response yields
`{ summary: parsed.summary.trim(), tag: validateTag(parsed.tag) }`; every
throw is caught and yields `basicFallback('', text)`. -/
def callAIModel (outcome : AICallOutcome) (text : String) : ClassificationResult :=
  match outcome with
  | .parsed s tag => ⟨trimJS s, validateTag tag⟩
  | _ => basicFallback "" text

/-- `AIProcessor.processEmail` with the stored settings and the network
outcome passed in: clean the body, fall back when the key is falsy or the
cleaned text is empty, call the AI, fall back when the summary is falsy or
shorter than 10 characters, otherwise deliver the context-hinted summary
with the AI tag. -/
def processEmailModel (subject body : String) (apiKey : Option String)
    (outcome : AICallOutcome) : ClassificationResult :=
  if !optTruthy apiKey || cleanEmail body == "" then
    basicFallback subject (cleanEmail body)
  else
    if (callAIModel outcome (cleanEmail body)).summary == "" ||
        (callAIModel outcome (cleanEmail body)).summary.length < 10 then
      basicFallback subject (cleanEmail body)
    else
      ⟨addContextHint (callAIModel outcome (cleanEmail body)).summary subject
          (cleanEmail body) (callAIModel outcome (cleanEmail body)).tag,
        (callAIModel outcome (cleanEmail body)).tag⟩

/-! ## The processed-message dedup set
(`GmailNotifier` in the background service worker: `markAsProcessed`,
`loadStoredData`, the `clearProcessed` message handler)

The in-memory `Set` of processed ids is modelled as its insertion-ordered,
duplicate-free element list, which is exactly what `Array.from(set)`
persists; `new Set(array)` rebuilds it keeping first occurrences. -/

/-- `Set.prototype.add`: append when absent. -/
def setAdd (s : List String) (x : String) : List String :=
  if x ∈ s then s else s ++ [x]

/-- `Set.prototype.has`. -/
def setHas (s : List String) (x : String) : Bool := decide (x ∈ s)

/-- `new Set(array)` as performed by `loadStoredData` on the persisted
`processed_messages` array. -/
def setOfArray (l : List String) : List String := l.foldl setAdd []

/-! ## Concrete fixtures used in the theorems below -/

/-- A `text/html` leaf carrying base64 of `"<b>hi</b>"`. -/
def htmlLeafEx : RawMessage := .node (some "text/html") (some "PGI+aGk8L2I+") []

/-- A `text/plain` leaf carrying base64 of `"Hello world"`. -/
def plainLeafEx : RawMessage :=
  .node (some "text/plain") (some "SGVsbG8gd29ybGQ=") []

/-- 500 one-letter words: 999 characters of alternating `'a'` and `' '`. -/
def manyWords : String :=
  "a a a a a a a a a a a a a a a a a a a a a a a a a a a a a a a a a a a a a a a a a a a a a a a a a a a a a a a a a a a a a a a a a a a a a a a a a a a a a a a a a a a a a a a a a a a a a a a a a a a a a a a a a a a a a a a a a a a a a a a a a a a a a a a a a a a a a a a a a a a a a a a a a a a a a a a a a a a a a a a a a a a a a a a a a a a a a a a a a a a a a a a a a a a a a a a a a a a a a a a a a a a a a a a a a a a a a a a a a a a a a a a a a a a a a a a a a a a a a a a a a a a a a a a a a a a a a a a a a a a a a a a a a a a a a a a a a a a a a a a a a a a a a a a a a a a a a a a a a a a a a a a a a a a a a a a a a a a a a a a a a a a a a a a a a a a a a a a a a a a a a a a a a a a a a a a a a a a a a a a a a a a a a a a a a a a a a a a a a a a a a a a a a a a a a a a a a a a a a a a a a a a a a a a a a a a a a a a a a a a a a a a a a a a a a a a a a a a a a a a a a a a a a a a a a a a a a a a a a a a a a a a a a a a a a a a a a a a a a a a a a a a a a a a a a a a a a a a a a a a a"

/-- A 60-word model summary. -/
def sixtyWordSummary : String :=
  "w0 w1 w2 w3 w4 w5 w6 w7 w8 w9 w10 w11 w12 w13 w14 w15 w16 w17 w18 w19 w20 w21 w22 w23 w24 w25 w26 w27 w28 w29 w30 w31 w32 w33 w34 w35 w36 w37 w38 w39 w40 w41 w42 w43 w44 w45 w46 w47 w48 w49 w50 w51 w52 w53 w54 w55 w56 w57 w58 w59"

/-! # Theorems -/

/-! ## Extraction (claims C1, C2) -/

theorem find?_eq_none_of_all {α} {p : α → Bool} {l : List α}
    (h : ∀ x ∈ l, p x = false) : l.find? p = none :=
  List.find?_eq_none.mpr (fun x hx => by simp [h x hx])

theorem find?_append_cons {α} {p : α → Bool} {l₁ : List α} (l₂ : List α)
    {a : α} (ha : p a = true) (h : ∀ x ∈ l₁, p x = false) :
    (l₁ ++ a :: l₂).find? p = some a := by
  rw [List.find?_append, find?_eq_none_of_all h, Option.none_or,
    List.find?_cons_of_pos _ ha]

/-- Reduction of `extractEmailBody` at a node with no inline body data:
both single-part guards are false. -/
theorem extractEmailBody_node_noInline (mt : Option String)
    (parts : List RawMessage) :
    extractEmailBody (.node mt none parts)
      = match parts.find? isPlainLeafB with
        | some p => decodeBase64 (leafData p)
        | none =>
          match parts.find? isHtmlLeafB with
          | some p => stripHtml (decodeBase64 (leafData p))
          | none => extractList parts := by
  simp [extractEmailBody, optTruthy]

/-- `extractList` returns the first non-empty recursive extraction. -/
theorem extractList_eq_filter (l : List RawMessage) :
    extractList l
      = ((l.map extractEmailBody).filter (fun s => s != "")).headD "" := by
  induction l with
  | nil => rfl
  | cons p rest ih =>
    simp only [extractList, List.map_cons, List.filter_cons]
    by_cases h : extractEmailBody p = ""
    · simp [h, ih]
    · simp [h]

/-- **C1.** For every multipart node (no inline body data): if the children
contain a `text/plain` leaf, extraction returns the decoded data of the
first such leaf, regardless of where any `text/html` sibling appears; only
when no `text/plain` leaf exists at this level is the first `text/html`
leaf stripped and returned; and only when neither exists does extraction
recurse into each child in order and return the first non-empty result. -/
theorem extractEmailBody_sibling_priority :
    (∀ (mt : Option String) (l₁ l₂ : List RawMessage) (p : RawMessage),
      isPlainLeafB p = true → (∀ q ∈ l₁, isPlainLeafB q = false) →
      extractEmailBody (.node mt none (l₁ ++ p :: l₂))
        = decodeBase64 (leafData p))
    ∧ (∀ (mt : Option String) (l₁ l₂ : List RawMessage) (p : RawMessage),
      (∀ q ∈ l₁ ++ p :: l₂, isPlainLeafB q = false) →
      isHtmlLeafB p = true → (∀ q ∈ l₁, isHtmlLeafB q = false) →
      extractEmailBody (.node mt none (l₁ ++ p :: l₂))
        = stripHtml (decodeBase64 (leafData p)))
    ∧ (∀ (mt : Option String) (parts : List RawMessage),
      (∀ q ∈ parts, isPlainLeafB q = false) →
      (∀ q ∈ parts, isHtmlLeafB q = false) →
      extractEmailBody (.node mt none parts)
        = ((parts.map extractEmailBody).filter (fun s => s != "")).headD "") := by
  refine ⟨?_, ?_, ?_⟩
  · intro mt l₁ l₂ p hp h₁
    rw [extractEmailBody_node_noInline, find?_append_cons l₂ hp h₁]
  · intro mt l₁ l₂ p hnoplain hp h₁
    rw [extractEmailBody_node_noInline, find?_eq_none_of_all hnoplain,
      find?_append_cons l₂ hp h₁]
  · intro mt parts hnoplain hnohtml
    rw [extractEmailBody_node_noInline, find?_eq_none_of_all hnoplain,
      find?_eq_none_of_all hnohtml, extractList_eq_filter]

/-- Witness for C1: with the html sibling first in the parts sequence,
extraction still returns the decoded plain-text sibling. -/
theorem extractEmailBody_sibling_priority_witness :
    extractEmailBody (.node (some "multipart/alternative") none
      [htmlLeafEx, plainLeafEx]) = "Hello world" := by
  have h := extractEmailBody_sibling_priority.1 (some "multipart/alternative")
    [htmlLeafEx] [] plainLeafEx (by decide)
    (by
      intro q hq
      have hq2 : q = htmlLeafEx := by simpa using hq
      subst hq2
      decide)
  have h2 : ([htmlLeafEx] ++ plainLeafEx :: ([] : List RawMessage))
      = [htmlLeafEx, plainLeafEx] := rfl
  rw [h2] at h
  rw [h]
  decide

theorem noTextualList_mem {l : List RawMessage} (h : noTextualList l = true)
    {q : RawMessage} (hq : q ∈ l) : noTextual q = true := by
  induction l with
  | nil => cases hq
  | cons p rest ih =>
    simp only [noTextualList, Bool.and_eq_true] at h
    rcases List.mem_cons.mp hq with h1 | h1
    · exact h1 ▸ h.1
    · exact ih h.2 h1

theorem noTextual_not_plainLeaf {q : RawMessage} (h : noTextual q = true) :
    isPlainLeafB q = false := by
  match q with
  | .node mt bd ps =>
    simp only [noTextual, Bool.and_eq_true, Bool.not_eq_true',
      Bool.and_eq_false_iff, Bool.or_eq_false_iff] at h
    simp only [isPlainLeafB, RawMessage.mimeTypeOf, RawMessage.bodyDataOf,
      Bool.and_eq_false_iff]
    rcases h.1 with h1 | h1
    · exact Or.inr h1
    · exact Or.inl h1.1

theorem noTextual_not_htmlLeaf {q : RawMessage} (h : noTextual q = true) :
    isHtmlLeafB q = false := by
  match q with
  | .node mt bd ps =>
    simp only [noTextual, Bool.and_eq_true, Bool.not_eq_true',
      Bool.and_eq_false_iff, Bool.or_eq_false_iff] at h
    simp only [isHtmlLeafB, RawMessage.mimeTypeOf, RawMessage.bodyDataOf,
      Bool.and_eq_false_iff]
    rcases h.1 with h1 | h1
    · exact Or.inr h1
    · exact Or.inl h1.2

theorem noTextual_parts {mt : Option String} {bd : Option String}
    {parts : List RawMessage} (h : noTextual (.node mt bd parts) = true) :
    noTextualList parts = true := by
  simp only [noTextual, Bool.and_eq_true] at h
  exact h.2

/-- The single-part guards of a node all of whose data/mime combinations
are non-textual are false. -/
theorem noTextual_guards {mt bd : Option String} {parts : List RawMessage}
    (h : noTextual (.node mt bd parts) = true) :
    (optTruthy mt && optTruthy bd && mt == some "text/plain") = false ∧
    (optTruthy mt && optTruthy bd && mt == some "text/html") = false := by
  simp only [noTextual, Bool.and_eq_true, Bool.not_eq_true',
    Bool.and_eq_false_iff, Bool.or_eq_false_iff] at h
  constructor
  · rcases h.1 with h1 | h1
    · simp [h1]
    · simp [h1.1]
  · rcases h.1 with h1 | h1
    · simp [h1]
    · simp [h1.2]

mutual

theorem extract_of_noTextual :
    ∀ (m : RawMessage), noTextual m = true → extractEmailBody m = ""
  | .node mt bd parts => fun h => by
    have hg := noTextual_guards h
    have hp : parts.find? isPlainLeafB = none :=
      find?_eq_none_of_all
        (fun q hq => noTextual_not_plainLeaf (noTextualList_mem (noTextual_parts h) hq))
    have hh : parts.find? isHtmlLeafB = none :=
      find?_eq_none_of_all
        (fun q hq => noTextual_not_htmlLeaf (noTextualList_mem (noTextual_parts h) hq))
    simp only [extractEmailBody, hg.1, hg.2, if_false, hp, hh]
    exact extractList_of_noTextual parts (noTextual_parts h)

theorem extractList_of_noTextual :
    ∀ (l : List RawMessage), noTextualList l = true → extractList l = ""
  | [] => fun _ => rfl
  | p :: rest => fun h => by
    simp only [noTextualList, Bool.and_eq_true] at h
    simp only [extractList, extract_of_noTextual p h.1]
    simp only [extractList_of_noTextual rest h.2]
    rfl

end

/-- **C2.** `extractEmailBody` is total (it is a function in this
development; no exceptional exit exists): on every tree with no textual
leaf it returns `""`, and a node whose inline body data fails to decode
contributes `""` rather than an error. -/
theorem extractEmailBody_total_best_effort :
    (∀ m : RawMessage, noTextual m = true → extractEmailBody m = "")
    ∧ (∀ (mt : Option String) (d : String), decodeBase64Opt d = none →
        extractEmailBody (.node mt (some d) []) = "") := by
  constructor
  · exact extract_of_noTextual
  · intro mt d hd
    have hdec : decodeBase64 d = "" := by
      unfold decodeBase64
      rw [hd]
      rfl
    simp only [extractEmailBody]
    split
    · simpa [Option.getD] using hdec
    · split
      · simp only [Option.getD_some, hdec]
        decide
      · rfl

/-- Witness for C2: a pdf-only multipart tree extracts to `""`, and a
`text/plain` leaf whose data is not valid base64 extracts to `""`. -/
theorem extractEmailBody_total_best_effort_witness :
    extractEmailBody (.node (some "multipart/mixed") none
      [.node (some "application/pdf") (some "AAAA") []]) = ""
    ∧ extractEmailBody (.node (some "text/plain") (some "!!") []) = "" := by
  constructor
  · exact extractEmailBody_total_best_effort.1 _ (by decide)
  · exact extractEmailBody_total_best_effort.2 (some "text/plain") "!!"
      (by decide)

/-! ## AI-call failure handling (claim C8) -/

/-- **C8.** Every failed call outcome — transport failure, non-JSON body,
missing `choices` content (which is what any non-success HTTP status
produces, since the code never checks `res.ok` and error bodies carry no
`choices`), content that is not JSON, or a parsed object without a summary
field — makes `callAI` return exactly the deterministic rule-based
fallback on the sanitized text; no partial or synthetic result of the
failed call survives and no exception escapes the catch handler. -/
theorem callAI_failure_fallback (outcome : AICallOutcome) (text : String)
    (h : isFailedCall outcome = true) :
    callAIModel outcome text = basicFallback "" text := by
  cases outcome with
  | parsed s tag => simp [isFailedCall] at h
  | transportFail => rfl
  | badJson => rfl
  | noContent => rfl
  | contentNotJson => rfl
  | parsedNoSummary tag => rfl

/-- Witness for C8 at a concrete failed outcome and sanitized text. -/
theorem callAI_failure_fallback_witness :
    callAIModel .transportFail "please reply soon"
      = basicFallback "" "please reply soon" :=
  callAI_failure_fallback .transportFail "please reply soon" (by decide)

/-! ## Dedup persistence round-trip (claim C9) -/

theorem mem_setAdd {s : List String} {x y : String} :
    y ∈ setAdd s x ↔ y ∈ s ∨ y = x := by
  by_cases hx : x ∈ s
  · simp only [setAdd, if_pos hx]
    constructor
    · exact Or.inl
    · rintro (h | rfl)
      · exact h
      · exact hx
  · simp [setAdd, if_neg hx]

theorem mem_foldl_setAdd (l : List String) (acc : List String) (y : String) :
    y ∈ l.foldl setAdd acc ↔ y ∈ acc ∨ y ∈ l := by
  induction l generalizing acc with
  | nil => simp
  | cons a rest ih =>
    simp only [List.foldl_cons, ih, mem_setAdd, List.mem_cons]
    tauto

theorem mem_setOfArray {l : List String} {y : String} :
    y ∈ setOfArray l ↔ y ∈ l := by
  unfold setOfArray
  rw [mem_foldl_setAdd]
  simp

/-- **C9.** The set → array → set persistence round-trip preserves
membership: after `markAsProcessed(id)` persists `Array.from(set)`, a
reload (`new Set(array)`) still has the id; after `clear()` persists `[]`,
a reload has no id. -/
theorem dedup_persistence_roundtrip :
    (∀ (s : List String) (id : String),
      setHas (setOfArray (setAdd s id)) id = true)
    ∧ (∀ id : String, setHas (setOfArray []) id = false) := by
  constructor
  · intro s id
    simp only [setHas, decide_eq_true_eq]
    exact mem_setOfArray.mpr (mem_setAdd.mpr (Or.inr rfl))
  · intro id
    rfl

/-! ## Rule-based fallback cascade (claim C6) -/

/-- **C6 counterexample.** `basicFallback` has no Urgent branch at all: on
the claim's own example text `"urgent deadline tomorrow"` the returned tag
is `"No Reply Needed"`, not `"Urgent"`. -/
theorem basicFallback_no_urgent_cex :
    (basicFallback "" "urgent deadline tomorrow").tag = "No Reply Needed"
    ∧ ¬((basicFallback "" "urgent deadline tomorrow").tag = "Urgent") := by
  decide

/-- **C6 amended.** The rule-based classifier is a strict top-down cascade
on the lower-cased text in which the first matching category wins and tags
never combine, but it has no Urgent rule: the categories are Reply Required
(three rules), FYI, and the default No Reply Needed; in particular the text
`"urgent deadline tomorrow"` gets the default tag for every subject. -/
theorem basicFallback_cascade_amended :
    (∀ s t : String, fbCond1 (lowerL t.data) = true →
      basicFallback s t
        = ⟨"Interview-related email; reply to confirm next steps.",
            "Reply Required"⟩)
    ∧ (∀ s t : String, fbCond1 (lowerL t.data) = false →
        fbCond2 (lowerL t.data) = false → fbCond3 (lowerL t.data) = false →
        fbCond4 (lowerL t.data) = false →
        (basicFallback s t).tag = "No Reply Needed")
    ∧ (∀ s : String,
        (basicFallback s "urgent deadline tomorrow").tag = "No Reply Needed") := by
  refine ⟨?_, ?_, ?_⟩
  · intro s t h
    simp [basicFallback, h]
  · intro s t h1 h2 h3 h4
    simp only [basicFallback, h1, h2, h3, h4, Bool.false_eq_true, if_false]
    split <;> rfl
  · intro s
    have h1 : fbCond1 (lowerL "urgent deadline tomorrow".data) = false := by
      decide
    have h2 : fbCond2 (lowerL "urgent deadline tomorrow".data) = false := by
      decide
    have h3 : fbCond3 (lowerL "urgent deadline tomorrow".data) = false := by
      decide
    have h4 : fbCond4 (lowerL "urgent deadline tomorrow".data) = false := by
      decide
    simp only [basicFallback, h1, h2, h3, h4, Bool.false_eq_true, if_false]
    split <;> rfl

/-- Witness for the amended C6 cascade at concrete inputs. -/
theorem basicFallback_cascade_amended_witness :
    basicFallback "Call" "interview tomorrow"
      = ⟨"Interview-related email; reply to confirm next steps.",
          "Reply Required"⟩
    ∧ (basicFallback "Hello" "zebra text").tag = "No Reply Needed" := by
  constructor
  · exact basicFallback_cascade_amended.1 "Call" "interview tomorrow"
      (by decide)
  · exact basicFallback_cascade_amended.2.1 "Hello" "zebra text" (by decide)
      (by decide) (by decide) (by decide)

/-! ## Sanitizer length cap (claim C3) -/

/-- **C3 counterexample.** The final sanitizer stage caps characters
(`.slice(0, 900)`), not tokens: on 500 one-letter words the output has 450
whitespace-delimited tokens, more than the claimed 400-token maximum. -/
theorem cleanEmail_token_cap_cex :
    400 < tokenCount (cleanEmail manyWords) := by
  decide

/-- **C3 amended.** The final sanitization stage truncates to the first
900 characters (after whitespace collapse and trim): the output of
`cleanEmail` never exceeds 900 characters; no 400-token cap exists. -/
theorem cleanEmail_char_cap_amended (text : String) :
    (cleanEmail text).length ≤ 900 := by
  have h : (cleanEmail text).length = (cleanEmailL text.data).length := rfl
  rw [h]
  unfold cleanEmailL
  exact List.length_take_le 900 _

/-! ## URL/phone redaction (claim C5) -/

theorem mem_dropWhileWs {p : Char → Bool} {l : List Char} {c : Char}
    (h : c ∈ l.dropWhile p) : c ∈ l :=
  (List.dropWhile_suffix p).sublist.subset h

theorem mem_trimWsL {l : List Char} {c : Char} (h : c ∈ trimWsL l) : c ∈ l := by
  unfold trimWsL trimRL at h
  have h1 := mem_dropWhileWs (List.mem_reverse.mp h)
  exact mem_dropWhileWs (List.mem_reverse.mp h1)

theorem collapseWs_cons_neg {d : Char} {t : List Char} (hd : isWs d = false) :
    collapseWs (d :: t) = d :: collapseWs t := by
  simp [collapseWs, hd]

theorem collapseWs_singleton_ws {a : Char} (ha : isWs a = true) :
    collapseWs [a] = [' '] := by
  simp [collapseWs, ha]

theorem collapseWs_cons_ws_ws {a d : Char} {t : List Char}
    (ha : isWs a = true) (hd : isWs d = true) :
    collapseWs (a :: d :: t) = collapseWs (d :: t) := by
  simp [collapseWs, ha, hd]

theorem collapseWs_cons_ws_nws {a d : Char} {t : List Char}
    (ha : isWs a = true) (hd : isWs d = false) :
    collapseWs (a :: d :: t) = ' ' :: collapseWs (d :: t) := by
  simp [collapseWs, ha, hd]

theorem mem_collapseWs {l : List Char} {c : Char} (h : c ∈ collapseWs l) :
    c ∈ l ∨ c = ' ' := by
  induction l with
  | nil => cases h
  | cons a rest ih =>
    by_cases ha : isWs a = true
    · cases rest with
      | nil =>
        rw [collapseWs_singleton_ws ha] at h
        exact Or.inr (by simpa using h)
      | cons d t =>
        by_cases hd : isWs d = true
        · rw [collapseWs_cons_ws_ws ha hd] at h
          rcases ih h with h1 | h1
          · exact Or.inl (List.mem_cons_of_mem a h1)
          · exact Or.inr h1
        · rw [collapseWs_cons_ws_nws ha (by simpa using hd)] at h
          rcases List.mem_cons.mp h with h1 | h1
          · exact Or.inr h1
          · rcases ih h1 with h2 | h2
            · exact Or.inl (List.mem_cons_of_mem a h2)
            · exact Or.inr h2
    · rw [collapseWs_cons_neg (by simpa using ha)] at h
      rcases List.mem_cons.mp h with h1 | h1
      · exact Or.inl (h1 ▸ List.mem_cons_self a rest)
      · rcases ih h1 with h2 | h2
        · exact Or.inl (List.mem_cons_of_mem a h2)
        · exact Or.inr h2

theorem mem_removeUrlsAux {fuel : Nat} {l : List Char} {c : Char}
    (h : c ∈ removeUrlsAux fuel l) : c ∈ l := by
  induction fuel generalizing l with
  | zero =>
    cases l with
    | nil => cases h
    | cons a rest => exact h
  | succ fuel ih =>
    cases l with
    | nil => cases h
    | cons a rest =>
      rcases hm : urlMatchLen (a :: rest) with _ | k
      · simp only [removeUrlsAux, hm] at h
        rcases List.mem_cons.mp h with h1 | h1
        · exact h1 ▸ List.mem_cons_self a rest
        · exact List.mem_cons_of_mem a (ih h1)
      · simp only [removeUrlsAux, hm] at h
        exact List.mem_of_mem_drop (ih h)

theorem mem_removeUrlsL {l : List Char} {c : Char}
    (h : c ∈ removeUrlsL l) : c ∈ l := mem_removeUrlsAux h

theorem mem_removeSfmL {l : List Char} {c : Char}
    (h : c ∈ removeSfmL l) : c ∈ l := by
  unfold removeSfmL at h
  split at h
  · exact List.mem_of_mem_take h
  · exact h

theorem mem_removeOrigMsgL {l : List Char} {c : Char}
    (h : c ∈ removeOrigMsgL l) : c ∈ l := by
  unfold removeOrigMsgL at h
  split at h
  · exact List.mem_of_mem_take h
  · exact h

theorem mem_removeOnWroteL {l : List Char} {c : Char}
    (h : c ∈ removeOnWroteL l) : c ∈ l := by
  unfold removeOnWroteL at h
  split at h
  · exact List.mem_of_mem_take h
  · exact h

theorem mem_removeGreetingL {l : List Char} {c : Char}
    (h : c ∈ removeGreetingL l) : c ∈ l := by
  simp only [removeGreetingL] at h
  split at h
  · split at h
    · exact List.mem_of_mem_drop h
    · exact h
  · exact h

/-- Character provenance of the sanitizer: every output character is an
input character or the single space the whitespace collapse introduces. -/
theorem mem_cleanEmailL {s : List Char} {c : Char} (h : c ∈ cleanEmailL s) :
    c ∈ s ∨ c = ' ' := by
  unfold cleanEmailL at h
  have h1 := mem_trimWsL (List.mem_of_mem_take h)
  rcases mem_collapseWs h1 with h2 | h2
  · exact Or.inl (mem_removeGreetingL (mem_removeOnWroteL (mem_removeOrigMsgL
      (mem_removeSfmL (mem_removeUrlsL h2)))))
  · exact Or.inr h2

theorem isPref_subset {p l : List Char} (h : isPref p l = true) :
    ∀ c ∈ p, c ∈ l := by
  induction p generalizing l with
  | nil => intro c hc; cases hc
  | cons a ps ih =>
    cases l with
    | nil => simp [isPref] at h
    | cons b ls =>
      simp only [isPref, Bool.and_eq_true, beq_iff_eq] at h
      intro c hc
      rcases List.mem_cons.mp hc with h1 | h1
      · rw [h1, h.1]
        exact List.mem_cons_self b ls
      · exact List.mem_cons_of_mem b (ih h.2 c h1)

theorem containsSub_subset {t p : List Char} (h : containsSub t p = true) :
    ∀ c ∈ p, c ∈ t := by
  induction t with
  | nil =>
    intro c hc
    simp only [containsSub] at h
    cases isPref_subset h c hc
  | cons a rest ih =>
    simp only [containsSub, Bool.or_eq_true] at h
    intro c hc
    rcases h with h1 | h1
    · exact isPref_subset h1 c hc
    · exact List.mem_cons_of_mem a (ih h1 c hc)

/-- **C5 counterexample.** On the canonical URL input the sanitizer deletes
the URL outright — the output contains no `[URL]` token — and a
phone-shaped digit group passes through unchanged with no `[PHONE]` token. -/
theorem cleanEmail_redaction_cex :
    cleanEmail "visit https://x.com now" = "visit now"
    ∧ containsStr (cleanEmail "visit https://x.com now").data "[URL]" = false
    ∧ cleanEmail "call 555-123-4567 now" = "call 555-123-4567 now"
    ∧ containsStr (cleanEmail "call 555-123-4567 now").data "[PHONE]" = false := by
  refine ⟨by decide, by decide, by decide, by decide⟩

/-- **C5 amended.** The sanitizer deletes URL-shaped substrings (replaces
them with the empty string) and has no phone-number handling at all: no
`[URL]` or `[PHONE]` placeholder is ever produced — the output cannot
contain one unless the input already contained a `'['` — a concrete URL is
removed without a trace, and a phone-shaped digit group is left in place. -/
theorem cleanEmail_redaction_amended :
    (∀ s : String, '[' ∉ s.data →
      containsStr (cleanEmail s).data "[URL]" = false ∧
      containsStr (cleanEmail s).data "[PHONE]" = false)
    ∧ cleanEmail "visit https://x.com now" = "visit now"
    ∧ cleanEmail "call 555-123-4567 now" = "call 555-123-4567 now" := by
  refine ⟨?_, by decide, by decide⟩
  intro s hs
  constructor
  · by_contra hcon
    have h2 : containsStr (cleanEmail s).data "[URL]" = true := by
      simpa using hcon
    have h3 : '[' ∈ (cleanEmail s).data :=
      containsSub_subset h2 '[' (by decide)
    rcases mem_cleanEmailL h3 with h4 | h4
    · exact hs h4
    · exact absurd h4 (by decide)
  · by_contra hcon
    have h2 : containsStr (cleanEmail s).data "[PHONE]" = true := by
      simpa using hcon
    have h3 : '[' ∈ (cleanEmail s).data :=
      containsSub_subset h2 '[' (by decide)
    rcases mem_cleanEmailL h3 with h4 | h4
    · exact hs h4
    · exact absurd h4 (by decide)

/-- Witness for the amended C5 on the two concrete inputs. -/
theorem cleanEmail_redaction_amended_witness :
    containsStr (cleanEmail "visit https://x.com now").data "[URL]" = false
    ∧ containsStr (cleanEmail "call 555-123-4567 now").data "[PHONE]" = false := by
  constructor
  · exact (cleanEmail_redaction_amended.1 "visit https://x.com now"
      (by decide)).1
  · exact (cleanEmail_redaction_amended.1 "call 555-123-4567 now"
      (by decide)).2

/-! ## AI summary validation and context hinting (claims C7, C10) -/

/-- **C7 counterexample.** A syntactically valid AI response whose summary
has 60 words is delivered verbatim by `processEmail`: no 35-word check and
no emergency summary exist in the code. -/
theorem processEmail_wordcap_cex :
    (processEmailModel "zzz" "qqq www" (some "key")
        (.parsed sixtyWordSummary (some "FYI"))).summary = sixtyWordSummary
    ∧ 35 < tokenCount sixtyWordSummary := by
  refine ⟨by decide, by decide⟩

theorem processEmail_cond1_false {key body : String}
    (hk : optTruthy (some key) = true) (hc : ¬(cleanEmail body = "")) :
    (!optTruthy (some key) || cleanEmail body == "") = false := by
  rw [hk, beq_eq_false_iff_ne.mpr hc]
  rfl

/-- Path reduction of `processEmailModel` for a parsed response that passes
both gates. -/
theorem processEmailModel_parsed_valid {subject body key s : String}
    {tag : Option String} (hk : optTruthy (some key) = true)
    (hc : ¬(cleanEmail body = "")) (hs : ¬(trimJS s = ""))
    (hlen : 10 ≤ (trimJS s).length) :
    processEmailModel subject body (some key) (.parsed s tag)
      = ⟨addContextHint (trimJS s) subject (cleanEmail body) (validateTag tag),
          validateTag tag⟩ := by
  have hcond2 : (trimJS s == "" || decide ((trimJS s).length < 10)) = false := by
    rw [beq_eq_false_iff_ne.mpr hs, decide_eq_false (Nat.not_lt.mpr hlen)]
    rfl
  simp only [processEmailModel, callAIModel, processEmail_cond1_false hk hc,
    hcond2, Bool.false_eq_true, if_false]

/-- **C7 amended.** `processEmail` validates only that the AI summary is
present and at least 10 characters long: a summary failing that check is
replaced by the full rule-based fallback result, and any summary passing it
— with no bound on its word count — is delivered unchanged up to trimming
and context hinting (verbatim when no hint pattern matches); there is no
35-word cap and no emergency summary. -/
theorem processEmail_validation_amended :
    (∀ (subject body key s : String) (tag : Option String),
      optTruthy (some key) = true → ¬(cleanEmail body = "") →
      ¬(trimJS s = "") → 10 ≤ (trimJS s).length →
      hintResult (hintText subject (cleanEmail body)) = none →
      processEmailModel subject body (some key) (.parsed s tag)
        = ⟨trimJS s, validateTag tag⟩)
    ∧ (∀ (subject body key s : String) (tag : Option String),
      optTruthy (some key) = true → (trimJS s).length < 10 →
      processEmailModel subject body (some key) (.parsed s tag)
        = basicFallback subject (cleanEmail body)) := by
  constructor
  · intro subject body key s tag hk hc hs hlen hhint
    rw [processEmailModel_parsed_valid hk hc hs hlen]
    unfold addContextHint
    rw [hhint]
  · intro subject body key s tag hk hshort
    by_cases hc : cleanEmail body = ""
    · have hcond1 : (!optTruthy (some key) || cleanEmail body == "") = true := by
        rw [hc]
        simp
      simp only [processEmailModel, hcond1, if_true]
    · have hcond2 : ((callAIModel (.parsed s tag) (cleanEmail body)).summary == ""
          || decide ((callAIModel (.parsed s tag) (cleanEmail body)).summary.length < 10))
          = true := by
        simp only [callAIModel]
        rw [decide_eq_true hshort]
        simp
      simp only [processEmailModel, processEmail_cond1_false hk hc,
        Bool.false_eq_true, if_false, hcond2, if_true]

/-- Witness for the amended C7: a valid 21-character summary is delivered
verbatim, and a 5-character summary triggers the rule-based fallback. -/
theorem processEmail_validation_amended_witness :
    processEmailModel "zzz" "qqq www" (some "key")
        (.parsed "a fine longer summary" (some "FYI"))
      = ⟨"a fine longer summary", "FYI"⟩
    ∧ processEmailModel "zzz" "qqq www" (some "key")
        (.parsed "short" (some "FYI"))
      = basicFallback "zzz" (cleanEmail "qqq www") := by
  constructor
  · have h := processEmail_validation_amended.1 "zzz" "qqq www" "key"
      "a fine longer summary" (some "FYI") (by decide) (by decide) (by decide)
      (by decide) (by decide)
    rw [h]
    decide
  · exact processEmail_validation_amended.2 "zzz" "qqq www" "key" "short"
      (some "FYI") (by decide) (by decide)

/-- **C10.** On the AI path — key present, non-empty cleaned body, and a
summary passing the length gate — the summary delivered by `processEmail`
is determined entirely by the context-hint cascade over the lower-cased
subject and cleaned body: it is the canned sentence of the first matching
`hintRules` entry, independent of the model summary, and it is the
(trimmed) model summary exactly when no entry matches. -/
theorem addContextHint_override (subject body key s : String)
    (tag : Option String) (hk : optTruthy (some key) = true)
    (hc : ¬(cleanEmail body = "")) (hs : ¬(trimJS s = ""))
    (hlen : 10 ≤ (trimJS s).length) :
    (processEmailModel subject body (some key) (.parsed s tag)).summary
      = match hintResult (hintText subject (cleanEmail body)) with
        | some c => c
        | none => trimJS s := by
  rw [processEmailModel_parsed_valid hk hc hs hlen]
  rfl

/-- Witness for C10: an OTP-matching subject/body forces the canned OTP
sentence regardless of the model summary. -/
theorem addContextHint_override_witness :
    (processEmailModel "OTP Login" "use this code 123456" (some "key")
        (.parsed "model wrote something here" (some "FYI"))).summary
      = "One-time password received for account verification." := by
  have h := addContextHint_override "OTP Login" "use this code 123456" "key"
    "model wrote something here" (some "FYI") (by decide) (by decide)
    (by decide) (by decide)
  rw [h]
  decide

/-! ## Sanitizer idempotence (claim C4) -/

theorem dropWhile_head_not {p : Char → Bool} {l : List Char} {c : Char}
    (h : (l.dropWhile p).head? = some c) : p c = false := by
  induction l with
  | nil => simp at h
  | cons a rest ih =>
    by_cases ha : p a = true
    · rw [List.dropWhile_cons_of_pos ha] at h
      exact ih h
    · rw [List.dropWhile_cons_of_neg ha] at h
      simp only [List.head?_cons, Option.some.injEq] at h
      rw [← h]
      simpa using ha

theorem dropWhile_eq_self_of_head {p : Char → Bool} {l : List Char}
    (h : ∀ c, l.head? = some c → p c = false) : l.dropWhile p = l := by
  cases l with
  | nil => rfl
  | cons a rest =>
    have ha := h a rfl
    rw [List.dropWhile_cons_of_neg (by simp [ha])]

theorem isPrefix_head {l₁ l₂ : List Char} (h : l₁ <+: l₂) {c : Char}
    (hc : l₁.head? = some c) : l₂.head? = some c := by
  obtain ⟨t, rfl⟩ := h
  cases l₁ with
  | nil => simp at hc
  | cons a r => simpa using hc

theorem trimRL_pref (z : List Char) : trimRL z <+: z := by
  unfold trimRL
  have h := List.dropWhile_suffix (l := z.reverse) isWs
  have h2 := List.reverse_prefix.mpr h
  rwa [List.reverse_reverse] at h2

theorem trimWsL_head_not {m : List Char} {c : Char}
    (h : (trimWsL m).head? = some c) : isWs c = false := by
  unfold trimWsL at h
  exact dropWhile_head_not (isPrefix_head (trimRL_pref (m.dropWhile isWs)) h)

theorem trimWsL_reverse_head_not {m : List Char} {c : Char}
    (h : (trimWsL m).reverse.head? = some c) : isWs c = false := by
  unfold trimWsL trimRL at h
  rw [List.reverse_reverse] at h
  exact dropWhile_head_not h

theorem trimWsL_idem (m : List Char) : trimWsL (trimWsL m) = trimWsL m := by
  have hA : (trimWsL m).dropWhile isWs = trimWsL m :=
    dropWhile_eq_self_of_head (fun c hc => trimWsL_head_not hc)
  have hB : (trimWsL m).reverse.dropWhile isWs = (trimWsL m).reverse :=
    dropWhile_eq_self_of_head (fun c hc => trimWsL_reverse_head_not hc)
  show trimRL ((trimWsL m).dropWhile isWs) = trimWsL m
  rw [hA]
  show ((trimWsL m).reverse.dropWhile isWs).reverse = trimWsL m
  rw [hB, List.reverse_reverse]

theorem allWsSpace_of_subset {l l' : List Char} (h : allWsSpace l = true)
    (hsub : ∀ c ∈ l', c ∈ l) : allWsSpace l' = true := by
  simp only [allWsSpace, List.all_eq_true] at h ⊢
  exact fun c hc => h c (hsub c hc)

theorem noAdjWs_tail {a : Char} {l : List Char}
    (h : noAdjWs (a :: l) = true) : noAdjWs l = true := by
  cases l with
  | nil => rfl
  | cons d t =>
    simp only [noAdjWs, Bool.and_eq_true] at h
    exact h.2

theorem noAdjWs_cons_of_head {a : Char} {l : List Char}
    (ha : isWs a = false) (h : noAdjWs l = true) : noAdjWs (a :: l) = true := by
  cases l with
  | nil => rfl
  | cons d t =>
    simp only [noAdjWs, Bool.and_eq_true]
    exact ⟨by simp [ha], h⟩

theorem allWsSpace_collapseWs (l : List Char) :
    allWsSpace (collapseWs l) = true := by
  induction l with
  | nil => rfl
  | cons a rest ih =>
    by_cases ha : isWs a = true
    · cases rest with
      | nil =>
        rw [collapseWs_singleton_ws ha]
        decide
      | cons d t =>
        by_cases hd : isWs d = true
        · rw [collapseWs_cons_ws_ws ha hd]
          exact ih
        · rw [collapseWs_cons_ws_nws ha (by simpa using hd)]
          simp only [allWsSpace, List.all_cons, Bool.and_eq_true] at ih ⊢
          exact ⟨by decide, ih⟩
    · have ha2 : isWs a = false := by simpa using ha
      rw [collapseWs_cons_neg ha2]
      simp only [allWsSpace, List.all_cons, Bool.and_eq_true] at ih ⊢
      exact ⟨by simp [ha2], ih⟩

theorem noAdjWs_collapseWs (l : List Char) : noAdjWs (collapseWs l) = true := by
  induction l with
  | nil => rfl
  | cons a rest ih =>
    by_cases ha : isWs a = true
    · cases rest with
      | nil =>
        rw [collapseWs_singleton_ws ha]
        rfl
      | cons d t =>
        by_cases hd : isWs d = true
        · rw [collapseWs_cons_ws_ws ha hd]
          exact ih
        · have hd2 : isWs d = false := by simpa using hd
          rw [collapseWs_cons_ws_nws ha hd2]
          rw [collapseWs_cons_neg hd2] at ih ⊢
          simp only [noAdjWs, Bool.and_eq_true]
          exact ⟨by simp [hd2], ih⟩
    · have ha2 : isWs a = false := by simpa using ha
      rw [collapseWs_cons_neg ha2]
      exact noAdjWs_cons_of_head ha2 ih

theorem collapseWs_eq_self {l : List Char} (hall : allWsSpace l = true)
    (hadj : noAdjWs l = true) : collapseWs l = l := by
  induction l with
  | nil => rfl
  | cons a rest ih =>
    have hallr : allWsSpace rest = true := by
      simp only [allWsSpace, List.all_cons, Bool.and_eq_true] at hall
      exact hall.2
    by_cases ha : isWs a = true
    · have haSp : a = ' ' := by
        simp only [allWsSpace, List.all_cons, Bool.and_eq_true,
          Bool.or_eq_true] at hall
        rcases hall.1 with h | h
        · rw [ha] at h
          simp at h
        · simpa using h
      cases rest with
      | nil =>
        rw [collapseWs_singleton_ws ha, haSp]
      | cons d t =>
        have hd : isWs d = false := by
          simp only [noAdjWs, Bool.and_eq_true] at hadj
          have h1 := hadj.1
          rw [ha] at h1
          simpa using h1
        rw [collapseWs_cons_ws_nws ha hd, haSp]
        congr 1
        exact ih hallr (noAdjWs_tail hadj)
    · have ha2 : isWs a = false := by simpa using ha
      rw [collapseWs_cons_neg ha2]
      congr 1
      exact ih hallr (noAdjWs_tail hadj)

theorem noAdjWs_dropWhile {p : Char → Bool} {l : List Char}
    (h : noAdjWs l = true) : noAdjWs (l.dropWhile p) = true := by
  induction l with
  | nil => rfl
  | cons a rest ih =>
    by_cases ha : p a = true
    · rw [List.dropWhile_cons_of_pos ha]
      exact ih (noAdjWs_tail h)
    · rw [List.dropWhile_cons_of_neg ha]
      exact h

theorem noAdjWs_iff_chain {l : List Char} :
    noAdjWs l = true
      ↔ l.Chain' (fun a b => ¬(isWs a = true ∧ isWs b = true)) := by
  induction l with
  | nil => simp [noAdjWs]
  | cons a rest ih =>
    cases rest with
    | nil => simp [noAdjWs]
    | cons d t =>
      rw [List.chain'_cons, ← ih]
      cases hwa : isWs a <;> cases hwd : isWs d <;>
        simp [noAdjWs, hwa, hwd]

theorem noAdjWs_reverse {l : List Char} (h : noAdjWs l = true) :
    noAdjWs l.reverse = true := by
  rw [noAdjWs_iff_chain] at h ⊢
  rw [List.chain'_reverse]
  exact h.imp (fun a b hab => fun h2 => hab ⟨h2.2, h2.1⟩)

theorem noAdjWs_trimWsL {l : List Char} (h : noAdjWs l = true) :
    noAdjWs (trimWsL l) = true := by
  unfold trimWsL trimRL
  exact noAdjWs_reverse (noAdjWs_dropWhile (noAdjWs_reverse (noAdjWs_dropWhile h)))

/-- **C4 counterexample.** The sanitizer is not idempotent: whitespace
collapse joins `"on monday"` and `"he wrote:"` onto one line, so the
second pass finds an `on .* wrote:` match the first pass could not see. -/
theorem cleanEmail_idempotent_cex :
    ¬(cleanEmail (cleanEmail "meet on monday\nhe wrote: yes ok")
        = cleanEmail "meet on monday\nhe wrote: yes ok") := by
  decide

/-- **C4 amended.** The sanitizer is not idempotent in general (see the
counterexample); it is idempotent on every input whose sanitized form is a
fixed point of the five removal stages and is shorter than the 900
character cap (so that the truncation cannot leave a dangling trailing
space for the second pass to trim). -/
theorem cleanEmail_idempotent_amended (x : String)
    (h1 : removeGreetingL (cleanEmail x).data = (cleanEmail x).data)
    (h2 : removeOnWroteL (cleanEmail x).data = (cleanEmail x).data)
    (h3 : removeOrigMsgL (cleanEmail x).data = (cleanEmail x).data)
    (h4 : removeSfmL (cleanEmail x).data = (cleanEmail x).data)
    (h5 : removeUrlsL (cleanEmail x).data = (cleanEmail x).data)
    (hlen : (cleanEmail x).length < 900) :
    cleanEmail (cleanEmail x) = cleanEmail x := by
  obtain ⟨w, hw⟩ : ∃ w, removeUrlsL (removeSfmL (removeOrigMsgL
      (removeOnWroteL (removeGreetingL x.data)))) = w := ⟨_, rfl⟩
  have hy : (cleanEmail x).data = (trimWsL (collapseWs w)).take 900 := by
    rw [← hw]
    rfl
  have hlen2 : (trimWsL (collapseWs w)).length < 900 := by
    have hl : (cleanEmail x).data.length < 900 := hlen
    rw [hy, List.length_take] at hl
    omega
  have hy2 : (cleanEmail x).data = trimWsL (collapseWs w) := by
    rw [hy, List.take_of_length_le (Nat.le_of_lt hlen2)]
  have hall : allWsSpace (cleanEmail x).data = true := by
    rw [hy2]
    exact allWsSpace_of_subset (allWsSpace_collapseWs w)
      (fun c hc => mem_trimWsL hc)
  have hadj : noAdjWs (cleanEmail x).data = true := by
    rw [hy2]
    exact noAdjWs_trimWsL (noAdjWs_collapseWs w)
  have hcol : collapseWs (cleanEmail x).data = (cleanEmail x).data :=
    collapseWs_eq_self hall hadj
  have htrim : trimWsL (cleanEmail x).data = (cleanEmail x).data := by
    rw [hy2, trimWsL_idem]
  have htake : ((cleanEmail x).data).take 900 = (cleanEmail x).data :=
    List.take_of_length_le (Nat.le_of_lt hlen)
  have hfinal : cleanEmail (cleanEmail x)
      = String.mk (cleanEmailL (cleanEmail x).data) := rfl
  rw [hfinal]
  unfold cleanEmailL
  rw [h1, h2, h3, h4, h5, hcol, htrim, htake]

/-- Witness for the amended C4 at a concrete fixed-point input. -/
theorem cleanEmail_idempotent_amended_witness :
    cleanEmail (cleanEmail "foo bar") = cleanEmail "foo bar" :=
  cleanEmail_idempotent_amended "foo bar" (by decide) (by decide) (by decide)
    (by decide) (by decide) (by decide)

end SGN
